import Mathlib

/-!
Verification of the habitat-layout validation engine.

The definitions below are a shallow embedding of the layout validator
(`validateLayout`, `canSwitchTo3D` and their helper rules) and of the
port-compatibility predicate `canPortsConnect` of the catalog.  JavaScript
numbers are modelled as rationals, the JS `Map` as an insertion-ordered
association list, and the worklist array of the connectivity traversal as a
list whose head is the top of the stack (JS pushes and pops at the end of
the array).  `Math.round` is modelled as floor of x + 1/2 (JS rounds halves
toward positive infinity) and `Number.toFixed(1)` as decimal formatting
with the same rounding, exact on the decimal inputs that occur here.
-/

/-- Severity of a finding: the `type` field of a `ValidationError`. -/
inductive Severity where
  | error
  | warning
deriving DecidableEq, Repr

/-- A single finding returned by the validator. -/
structure ValidationError where
  type : Severity
  message : String
  moduleId : Option String
deriving DecidableEq, Repr

/-- The four port types of the catalog. -/
inductive PortType where
  | habPort
  | svcPort
  | stdPort
  | airlockPort
deriving DecidableEq, Repr

/-- String rendering of a port type, as the TS union values spell it. -/
def portTypeStr : PortType → String
  | PortType.habPort => "hab-port"
  | PortType.svcPort => "svc-port"
  | PortType.stdPort => "std-port"
  | PortType.airlockPort => "airlock-port"

/-- A docking port of a main-module type. -/
structure Port where
  id : String
  type : PortType
  position : String
  x : ℚ
  y : ℚ
deriving DecidableEq, Repr

/-- A placed main module: the catalog fields of `MainModule` together with
the placement fields added by `PlacedMainModule`. -/
structure PlacedMainModule where
  id : String
  name : String
  shortName : String
  width : ℚ
  depth : ℚ
  height : ℚ
  volume : ℚ
  mass : ℚ
  category : String
  color : String
  ports : List Port
  allowedSubModules : List String
  maxConnections : Option ℕ
  instanceId : String
  x : ℚ
  y : ℚ
  rotation : ℚ
deriving DecidableEq, Repr

/-- A placed sub module: the catalog fields of `SubModule` together with
the placement fields added by `PlacedSubModule`. -/
structure PlacedSubModule where
  id : String
  name : String
  shortName : String
  width : ℚ
  depth : ℚ
  height : ℚ
  volume : ℚ
  category : String
  color : String
  allowedAnchors : List String
  zAware : Bool
  instanceId : String
  parentInstanceId : String
  x : ℚ
  y : ℚ
  z : ℚ
deriving DecidableEq, Repr

/-- A connection between two ports of two placed main modules. -/
structure Connection where
  id : String
  fromModuleId : String
  fromPortId : String
  toModuleId : String
  toPortId : String
deriving DecidableEq, Repr

/-- The aggregate layout document handed to the validator. -/
structure LayoutState where
  crewSize : ℕ
  mainModules : List PlacedMainModule
  subModules : List PlacedSubModule
  connections : List Connection
  selectedMainModuleId : Option String
  selectedSubModuleId : Option String
  zoomedModuleId : Option String
deriving DecidableEq, Repr

/-- Model of JS Math.round: round to nearest, halves toward positive infinity. -/
def jsRound (q : ℚ) : ℤ := ⌊q + 1 / 2⌋

/-- Model of JS Number.toFixed(1): one decimal digit, rounding as `jsRound`
at the first decimal place. -/
def fixed1 (q : ℚ) : String :=
  let n : ℤ := ⌊q * 10 + 1 / 2⌋
  if n < 0 then
    "-" ++ toString ((-n) / 10) ++ "." ++ toString ((-n) % 10)
  else
    toString (n / 10) ++ "." ++ toString (n % 10)

/-- The literal colon separator used by the port-usage keys. -/
def colonStr : String := ":"

/-- Port compatibility predicate of the catalog (`canPortsConnect` in
`src/data/mainModules.ts`). -/
def canPortsConnect (port1Type port2Type : PortType) : Bool :=
  if port1Type = port2Type then true
  else if port1Type = PortType.stdPort ∨ port2Type = PortType.stdPort then true
  else if (port1Type = PortType.habPort ∧ port2Type = PortType.svcPort) ∨
          (port1Type = PortType.svcPort ∧ port2Type = PortType.habPort) then true
  else false

/-- Minimum habitable volume constant of the validator. -/
def MIN_HABITABLE_VOLUME_PER_CREW : ℚ := 10.0

/-- One step of the forEach over connections inside the traversal of
`findFloatingModules`: the accumulator is the pair of the connected set and
the worklist stack (top of the JS array modelled as the list head). -/
def visitConn (current : String) (acc : List String × List String) (conn : Connection) :
    List String × List String :=
  if conn.fromModuleId = current ∧ conn.toModuleId ∉ acc.1 then
    (conn.toModuleId :: acc.1, conn.toModuleId :: acc.2)
  else if conn.toModuleId = current ∧ conn.fromModuleId ∉ acc.1 then
    (conn.fromModuleId :: acc.1, conn.fromModuleId :: acc.2)
  else
    acc

/-- All endpoint ids mentioned by a list of connections. -/
def allIds (conns : List Connection) : List String :=
  conns.flatMap (fun c => [c.fromModuleId, c.toModuleId])

/-- Number of endpoint-id occurrences not yet in the visited set; used to
measure the progress of the traversal. -/
def missingCount (conns : List Connection) (visited : List String) : ℕ :=
  ((allIds conns).filter (fun x => decide (x ∉ visited))).length

/-- Fuel that provably suffices for the traversal to drain its worklist. -/
def bfsFuel (conns : List Connection) : ℕ := 4 * conns.length + 2

/-- The while loop of `findFloatingModules`: pop the top of the worklist,
scan every connection, add unseen neighbour ids to the connected set and
the worklist. -/
def bfsLoop (conns : List Connection) : ℕ → List String → List String → List String
  | 0, visited, _ => visited
  | _ + 1, visited, [] => visited
  | fuel + 1, visited, current :: rest =>
    let acc := conns.foldl (visitConn current) (visited, rest)
    bfsLoop conns fuel acc.1 acc.2

/-- Main modules not connected to the station network
(`findFloatingModules` in the validator source). -/
def findFloatingModules (state : LayoutState) : List String :=
  if state.mainModules.length ≤ 1 then []
  else if state.connections.length = 0 then
    (state.mainModules.drop 1).map (fun m => m.instanceId)
  else
    match state.mainModules with
    | [] => []
    | m0 :: _ =>
      let visited :=
        bfsLoop state.connections (bfsFuel state.connections) [m0.instanceId] [m0.instanceId]
      (state.mainModules.filter (fun m => decide (m.instanceId ∉ visited))).map
        (fun m => m.instanceId)

/-- Rotation-adjusted footprint of a placed main module: width and depth
swap at 90 and 270 degrees. -/
def getDim (m : PlacedMainModule) : ℚ × ℚ :=
  if m.rotation = 90 ∨ m.rotation = 270 then (m.depth, m.width) else (m.width, m.depth)

/-- Axis-aligned overlap test with a 0.01 m tolerance
(`doModulesOverlap` in the validator source). -/
def doModulesOverlap (m1 m2 : PlacedMainModule) : Bool :=
  let d1 := getDim m1
  let d2 := getDim m2
  let tol : ℚ := 0.01
  decide (¬ (m1.x + d1.1 ≤ m2.x + tol ∨ m2.x + d2.1 ≤ m1.x + tol ∨
             m1.y + d1.2 ≤ m2.y + tol ∨ m2.y + d2.2 ≤ m1.y + tol))

/-- Both instance ids of every overlapping unordered pair, in the order the
double loop of `checkMainModuleOverlaps` pushes them. -/
def overlapPairs : List PlacedMainModule → List String
  | [] => []
  | m :: rest =>
    (rest.filter (fun n => doModulesOverlap m n)).flatMap
      (fun n => [m.instanceId, n.instanceId]) ++ overlapPairs rest

/-- First-occurrence deduplication, the model of the JS spread of a `Set`
built from a list. -/
def firstDedup (l : List String) : List String :=
  l.foldl (fun acc x => if x ∈ acc then acc else acc ++ [x]) []

/-- Distinct instance ids involved in some overlapping pair
(`checkMainModuleOverlaps` in the validator source). -/
def checkMainModuleOverlaps (modules : List PlacedMainModule) : List String :=
  firstDedup (overlapPairs modules)

/-- Direct sub-module children of a placed main module. -/
def childrenOf (subs : List PlacedSubModule) (mainModule : PlacedMainModule) :
    List PlacedSubModule :=
  subs.filter (fun sub => sub.parentInstanceId == mainModule.instanceId)

/-- Sum of the volumes of the direct sub-module children of a main module. -/
def totalSubVolume (subs : List PlacedSubModule) (mainModule : PlacedMainModule) : ℚ :=
  (childrenOf subs mainModule).foldl (fun sum sub => sum + sub.volume) 0

/-- Message of the capacity warning finding. -/
def msgCapacityWarn (short : String) (pct : ℤ) : String :=
  short ++ " at " ++ toString pct ++ "% capacity"

/-- Message of the capacity excess error finding. -/
def msgCapacityErr (short : String) (total avail : ℚ) : String :=
  short ++ " exceeds capacity: " ++ fixed1 total ++ "/" ++ fixed1 avail ++ "m³"

/-- The warning finding emitted when a parent sits in the 90 to 100 percent
capacity band. -/
def capacityWarningFinding (mainModule : PlacedMainModule) (total : ℚ) : ValidationError :=
  { type := Severity.warning
    message := msgCapacityWarn mainModule.shortName (jsRound (total / mainModule.volume * 100))
    moduleId := some mainModule.instanceId }

/-- The error finding emitted when the children volume exceeds the parent volume. -/
def capacityErrorFinding (mainModule : PlacedMainModule) (total : ℚ) : ValidationError :=
  { type := Severity.error
    message := msgCapacityErr mainModule.shortName total mainModule.volume
    moduleId := some mainModule.instanceId }

/-- Capacity findings contributed by one parent main module. -/
def capacityFindingsFor (subs : List PlacedSubModule) (mainModule : PlacedMainModule) :
    List ValidationError :=
  let total := totalSubVolume subs mainModule
  let availableVolume := mainModule.volume
  (if total > availableVolume * 0.9 ∧ total ≤ availableVolume then
    [capacityWarningFinding mainModule total]
  else []) ++
  (if total > availableVolume then [capacityErrorFinding mainModule total] else [])

/-- Parent-capacity rule (`validateParentCapacity` in the validator source). -/
def validateParentCapacity (state : LayoutState) : List ValidationError :=
  state.mainModules.flatMap (capacityFindingsFor state.subModules)

/-- Message of the insufficient-crew-volume error finding. -/
def msgCrewVolume (total minRequired : ℚ) (crewSize : ℕ) : String :=
  "Insufficient volume: " ++ fixed1 total ++ "m³ / " ++ fixed1 minRequired ++ "m³ for " ++
    toString crewSize ++ " crew"

/-- Crew-volume rule (`validateCrewVolume` in the validator source). -/
def validateCrewVolume (state : LayoutState) : Option ValidationError :=
  let totalVolume := state.mainModules.foldl (fun sum m => sum + m.volume) 0
  let minRequired := (state.crewSize : ℚ) * MIN_HABITABLE_VOLUME_PER_CREW
  if totalVolume < minRequired then
    some { type := Severity.error
           message := msgCrewVolume totalVolume minRequired state.crewSize
           moduleId := none }
  else none

/-- Message of the hygiene quota error finding. -/
def msgHygiene (minHygiene hygieneCount : ℕ) : String :=
  "Need " ++ toString minHygiene ++ " hygiene module(s), have " ++ toString hygieneCount

/-- Essentials rule (`validateEssentials` in the validator source); the
ceiling of crewSize over three is `(crewSize + 2) / 3` on naturals. -/
def validateEssentials (state : LayoutState) : List ValidationError :=
  let mainIds := state.mainModules.map (fun m => m.id)
  let minHygiene : ℕ := max 1 ((state.crewSize + 2) / 3)
  let hygieneCount := (mainIds.filter (fun id => id == "hygiene")).length
  (if hygieneCount < minHygiene then
    [{ type := Severity.error, message := msgHygiene minHygiene hygieneCount, moduleId := none }]
   else []) ++
  (if (mainIds.filter (fun id => id == "galley")).length < 1 then
    [{ type := Severity.error, message := "Need at least 1 galley module", moduleId := none }]
   else []) ++
  (if (mainIds.filter (fun id => id == "medical")).length < 1 then
    [{ type := Severity.error, message := "Need at least 1 medical module", moduleId := none }]
   else [])

/-- Message of the first z-clearance error finding. -/
def msgZHeight (subShort mainShort : String) : String :=
  subShort ++ " height exceeds " ++ mainShort

/-- Message of the second z-clearance error finding. -/
def msgZExtends (subShort mainShort : String) : String :=
  subShort ++ " extends beyond " ++ mainShort ++ " height"

/-- Z-clearance findings contributed by one parent main module. -/
def zClearanceFor (subs : List PlacedSubModule) (mainModule : PlacedMainModule) :
    List ValidationError :=
  let children :=
    subs.filter (fun sub => sub.parentInstanceId == mainModule.instanceId && sub.zAware)
  children.flatMap (fun sub =>
    (if sub.height > mainModule.height then
      [{ type := Severity.error
         message := msgZHeight sub.shortName mainModule.shortName
         moduleId := some mainModule.instanceId }]
     else []) ++
    (if sub.z + sub.height > mainModule.height then
      [{ type := Severity.error
         message := msgZExtends sub.shortName mainModule.shortName
         moduleId := some mainModule.instanceId }]
     else []))

/-- Z-clearance rule (`validateZClearance` in the validator source). -/
def validateZClearance (state : LayoutState) : List ValidationError :=
  state.mainModules.flatMap (zClearanceFor state.subModules)

/-- Message of the dangling-module error finding of the port-connection rule. -/
def msgMissingModule : String := "Connection references non-existent module"

/-- Message of the dangling-port error finding of the port-connection rule. -/
def msgMissingPort : String := "Connection references non-existent port"

/-- Message of the incompatible-ports error finding. -/
def msgIncompatible (fromType toType : PortType) : String :=
  "Incompatible ports: " ++ portTypeStr fromType ++ " <-> " ++ portTypeStr toType

/-- Findings contributed by one connection: the body of the forEach of
`validatePortConnections`; an early return there skips just this item. -/
def connCheck (mains : List PlacedMainModule) (conn : Connection) : List ValidationError :=
  match mains.find? (fun m => m.instanceId == conn.fromModuleId),
        mains.find? (fun m => m.instanceId == conn.toModuleId) with
  | some fromMod, some toMod =>
    match fromMod.ports.find? (fun p => p.id == conn.fromPortId),
          toMod.ports.find? (fun p => p.id == conn.toPortId) with
    | some fromPort, some toPort =>
      if canPortsConnect fromPort.type toPort.type then []
      else
        [{ type := Severity.error
           message := msgIncompatible fromPort.type toPort.type
           moduleId := some fromMod.instanceId }]
    | _, _ => [{ type := Severity.error, message := msgMissingPort, moduleId := none }]
  | _, _ => [{ type := Severity.error, message := msgMissingModule, moduleId := none }]

/-- Port-connection rule (`validatePortConnections` in the validator source). -/
def validatePortConnections (state : LayoutState) : List ValidationError :=
  state.connections.flatMap (connCheck state.mainModules)

/-- Message of the orphan sub-module error finding. -/
def msgNoParent (subShort : String) : String := subShort ++ " has no parent"

/-- Message of the disallowed sub-module error finding. -/
def msgNotAllowed (subShort parentShort : String) : String :=
  subShort ++ " cannot be placed in " ++ parentShort

/-- Findings contributed by one placed sub module: the body of the forEach
of `validateSubModulePlacement`. -/
def subCheck (mains : List PlacedMainModule) (subModule : PlacedSubModule) :
    List ValidationError :=
  match mains.find? (fun m => m.instanceId == subModule.parentInstanceId) with
  | none => [{ type := Severity.error, message := msgNoParent subModule.shortName, moduleId := none }]
  | some parent =>
    if subModule.id ∈ parent.allowedSubModules then []
    else
      [{ type := Severity.error
         message := msgNotAllowed subModule.shortName parent.shortName
         moduleId := some parent.instanceId }]

/-- Sub-module placement rule (`validateSubModulePlacement` in the validator source). -/
def validateSubModulePlacement (state : LayoutState) : List ValidationError :=
  state.subModules.flatMap (subCheck state.mainModules)

/-- One `portUsage.set(key, (portUsage.get(key) || 0) + 1)` step on the
insertion-ordered association list modelling the JS Map. -/
def bumpKey (usage : List (String × ℕ)) (key : String) : List (String × ℕ) :=
  if usage.any (fun p => p.1 == key) then
    usage.map (fun p => if p.1 == key then (p.1, p.2 + 1) else p)
  else
    usage ++ [(key, 1)]

/-- The port-usage multiset keyed by moduleId colon portId, built across
both endpoints of every connection. -/
def portUsage (conns : List Connection) : List (String × ℕ) :=
  conns.foldl (fun usage conn =>
    bumpKey (bumpKey usage (conn.fromModuleId ++ ":" ++ conn.fromPortId))
      (conn.toModuleId ++ ":" ++ conn.toPortId)) []

/-- The prefix of a key before the first colon, the model of
`portKey.split(colon)[0]`. -/
def firstSegment (s : String) : String :=
  match s.splitOn colonStr with
  | [] => ""
  | seg :: _ => seg

/-- Message of the port-reuse error finding. -/
def msgPortLimit (moduleName : String) (count : ℕ) : String :=
  "Port in " ++ moduleName ++ " connected " ++ toString count ++ " times (max 1)"

/-- The display name of the module owning an over-used port: the shortName
of the module found by the prefix of the key, with the JS falsy fallback to
the literal module. -/
def portModuleName (mains : List PlacedMainModule) (key : String) : String :=
  match mains.find? (fun m => m.instanceId == firstSegment key) with
  | some m => if m.shortName == "" then "module" else m.shortName
  | none => "module"

/-- The error finding emitted for one over-used port key. -/
def portLimitFinding (mains : List PlacedMainModule) (key : String) (count : ℕ) :
    ValidationError :=
  { type := Severity.error
    message := msgPortLimit (portModuleName mains key) count
    moduleId := some (firstSegment key) }

/-- Port-reuse rule (`validatePortLimits` in the validator source). -/
def validatePortLimits (state : LayoutState) : List ValidationError :=
  (portUsage state.connections).filterMap (fun p =>
    if p.2 > 1 then some (portLimitFinding state.mainModules p.1 p.2) else none)

/-- The single warning returned for an empty layout. -/
def emptyLayoutWarning : ValidationError :=
  { type := Severity.warning
    message := "No modules placed yet. Drag modules from the library to start building your habitat."
    moduleId := none }

/-- Message of the connectivity error finding. -/
def msgFloating (count : ℕ) : String :=
  toString count ++ " main module(s) not connected to station network"

/-- RULE 1 of `validateLayout`: one error summarizing the floating modules,
tagged with the first floating id. -/
def connectivityFindings (state : LayoutState) : List ValidationError :=
  match findFloatingModules state with
  | [] => []
  | f0 :: rest =>
    [{ type := Severity.error
       message := msgFloating (f0 :: rest).length
       moduleId := some f0 }]

/-- Message of the overlap error finding. -/
def msgOverlap (count : ℕ) : String :=
  toString count ++ " overlapping main module(s) detected"

/-- RULE 2 of `validateLayout`: one error counting the distinct overlapping ids. -/
def overlapFindings (state : LayoutState) : List ValidationError :=
  let overlaps := checkMainModuleOverlaps state.mainModules
  if overlaps.length > 0 then
    [{ type := Severity.error, message := msgOverlap overlaps.length, moduleId := none }]
  else []

/-- RULE 4 of `validateLayout` as a list. -/
def crewVolumeFindings (state : LayoutState) : List ValidationError :=
  match validateCrewVolume state with
  | some e => [e]
  | none => []

/-- The validator entry point (`validateLayout` in the validator source):
the empty-layout short circuit followed by the nine rules in order. -/
def validateLayout (state : LayoutState) : List ValidationError :=
  if state.mainModules.length = 0 then [emptyLayoutWarning]
  else
    connectivityFindings state ++ overlapFindings state ++ validateParentCapacity state ++
    crewVolumeFindings state ++ validateEssentials state ++ validateZClearance state ++
    validatePortConnections state ++ validateSubModulePlacement state ++
    validatePortLimits state

/-- Result of `canSwitchTo3D`. -/
structure SwitchGate where
  canSwitch : Bool
  errors : List ValidationError
deriving DecidableEq, Repr

/-- The 3D gate (`canSwitchTo3D` in the validator source). -/
def canSwitchTo3D (state : LayoutState) : SwitchGate :=
  let errors := (validateLayout state).filter (fun e => e.type == Severity.error)
  { canSwitch := errors.length == 0 && decide (state.mainModules.length > 0)
    errors := errors }

/-! ### Specification-side notions -/

/-- The instance ids of the placed main modules, in insertion order. -/
def mainIdsOf (state : LayoutState) : List String :=
  state.mainModules.map (fun m => m.instanceId)

/-- The instance id of the first main module in insertion order; the empty
string for an empty layout (the traversal is never started in that case). -/
def rootId (state : LayoutState) : String :=
  match state.mainModules with
  | [] => ""
  | m :: _ => m.instanceId

/-- Two ids are joined by an undirected edge when some connection has them
as its two endpoints, in either orientation. -/
def ConnEdge (conns : List Connection) (b c : String) : Prop :=
  ∃ conn ∈ conns,
    (conn.fromModuleId = b ∧ conn.toModuleId = c) ∨
    (conn.toModuleId = b ∧ conn.fromModuleId = c)

/-- Reachability in the undirected graph over arbitrary ids whose edges are
the connections; this is the graph the traversal of the validator walks. -/
inductive Reaches (conns : List Connection) (root : String) : String → Prop
  | refl : Reaches conns root root
  | step (b c : String) : Reaches conns root b → ConnEdge conns b c → Reaches conns root c

/-- Modelled from the claim wording: an edge of the undirected graph whose
nodes are exactly the main-module instance ids; a connection only counts
when both of its endpoints are such nodes. -/
def ModuleNodeEdge (state : LayoutState) (b c : String) : Prop :=
  b ∈ mainIdsOf state ∧ c ∈ mainIdsOf state ∧ ConnEdge state.connections b c

/-- Modelled from the claim wording: reachability in the graph whose nodes
are exactly the main-module instance ids. -/
inductive ReachesOnModuleNodes (state : LayoutState) (root : String) : String → Prop
  | refl : ReachesOnModuleNodes state root root
  | step (b c : String) : ReachesOnModuleNodes state root b → ModuleNodeEdge state b c →
      ReachesOnModuleNodes state root c

/-- Modelled from the claim wording: the two rotation-adjusted footprints
overlap by more than the 0.01 m tolerance on both axes, the overlap of two
intervals being the length `min right ends - max left ends`. -/
def specOverlapMoreThanTol (m1 m2 : PlacedMainModule) : Prop :=
  let w1 := if m1.rotation = 90 ∨ m1.rotation = 270 then m1.depth else m1.width
  let d1 := if m1.rotation = 90 ∨ m1.rotation = 270 then m1.width else m1.depth
  let w2 := if m2.rotation = 90 ∨ m2.rotation = 270 then m2.depth else m2.width
  let d2 := if m2.rotation = 90 ∨ m2.rotation = 270 then m2.width else m2.depth
  min (m1.x + w1) (m2.x + w2) - max m1.x m2.x > 0.01 ∧
  min (m1.y + d1) (m2.y + d2) - max m1.y m2.y > 0.01

/-- The sequence of port-usage keys contributed by both endpoints of every
connection, in traversal order. -/
def endpointKeys (conns : List Connection) : List String :=
  conns.flatMap (fun c =>
    [c.fromModuleId ++ ":" ++ c.fromPortId, c.toModuleId ++ ":" ++ c.toPortId])

/-- The sequence of endpoint (moduleId, portId) pairs of every connection,
the objects the port-reuse claim counts. -/
def pairEndpoints (conns : List Connection) : List (String × String) :=
  conns.flatMap (fun c => [(c.fromModuleId, c.fromPortId), (c.toModuleId, c.toPortId)])

/-- The insertion-ordered counter of a key sequence: first occurrences in
order, each paired with its total number of occurrences. -/
def counterOf (l : List String) : List (String × ℕ) :=
  (firstDedup l).map (fun k => (k, l.count k))

/-- The key both shared endpoints of `stSharedPort` produce. -/
def keyModAPortX : String := "modA:portX"

/-- The closure invariant of the traversal: an endpoint of a connection that
is already visited and no longer on the worklist has its opposite endpoint
visited too. -/
def StackClosed (conns : List Connection) (V stack : List String) : Prop :=
  ∀ conn ∈ conns,
    (conn.fromModuleId ∈ V → conn.fromModuleId ∉ stack → conn.toModuleId ∈ V) ∧
    (conn.toModuleId ∈ V → conn.toModuleId ∉ stack → conn.fromModuleId ∈ V)

/-! ### Concrete layout states used by witnesses and counterexamples -/

/-- A minimal placed main module with the given instance id. -/
def mkMod (iid : String) : PlacedMainModule :=
  { id := iid, name := iid, shortName := iid, width := 1, depth := 1, height := 2, volume := 10,
    mass := 0, category := "habitat", color := "c", ports := [], allowedSubModules := [],
    maxConnections := none, instanceId := iid, x := 0, y := 0, rotation := 0 }

/-- A connection with the given id and endpoints. -/
def mkConn (i f fp t tp : String) : Connection :=
  { id := i, fromModuleId := f, fromPortId := fp, toModuleId := t, toPortId := tp }

/-- An empty layout state with the given crew size and selection fields. -/
def emptyState : LayoutState :=
  { crewSize := 4, mainModules := [], subModules := [], connections := [],
    selectedMainModuleId := none, selectedSubModuleId := none, zoomedModuleId := none }

/-- Three modules A, B, C with a single connection between A and B: C floats. -/
def stThree : LayoutState :=
  { crewSize := 1,
    mainModules := [mkMod "A", mkMod "B", mkMod "C"],
    subModules := [], connections := [mkConn "c1" "A" "p" "B" "q"],
    selectedMainModuleId := none, selectedSubModuleId := none, zoomedModuleId := none }

/-- Modules A and C joined only through the dangling id X: the traversal of
the code walks through X, the graph over module nodes alone cannot. -/
def stViaGhost : LayoutState :=
  { crewSize := 1,
    mainModules := [mkMod "A", mkMod "C"],
    subModules := [],
    connections := [mkConn "c1" "A" "p" "X" "q", mkConn "c2" "X" "r" "C" "s"],
    selectedMainModuleId := none, selectedSubModuleId := none, zoomedModuleId := none }

/-- A 1 by 1 module at the origin. -/
def sqAt (iid : String) (px py : ℚ) : PlacedMainModule :=
  { mkMod iid with width := 1, depth := 1, x := px, y := py }

/-- A minimal placed sub module with the given instance id, parent and volume. -/
def mkSub (iid parent : String) (vol : ℚ) : PlacedSubModule :=
  { id := iid, name := iid, shortName := iid, width := 1, depth := 1, height := 1, volume := vol,
    category := "storage", color := "c", allowedAnchors := [], zAware := false,
    instanceId := iid, parentInstanceId := parent, x := 0, y := 0, z := 0 }

/-- One parent of volume 10 with one child of volume 9.5: the capacity band. -/
def stCapacity : LayoutState :=
  { crewSize := 1,
    mainModules := [mkMod "P"],
    subModules := [mkSub "s1" "P" 9.5],
    connections := [],
    selectedMainModuleId := none, selectedSubModuleId := none, zoomedModuleId := none }

/-- Two connections sharing the colon-free endpoint (modA, portX). -/
def stSharedPort : LayoutState :=
  { crewSize := 1,
    mainModules := [mkMod "modA"],
    subModules := [],
    connections := [mkConn "c1" "modA" "portX" "modB" "p1",
                    mkConn "c2" "modA" "portX" "modC" "p2"],
    selectedMainModuleId := none, selectedSubModuleId := none, zoomedModuleId := none }

/-- Connections whose ids contain colons: the endpoint pairs are pairwise
distinct, yet the concatenated keys of the first endpoints collide. -/
def stColonIds : LayoutState :=
  { crewSize := 1,
    mainModules := [mkMod "m"],
    subModules := [],
    connections := [mkConn "c1" "a:b" "c" "m1" "n1", mkConn "c2" "a" "b:c" "m2" "n2"],
    selectedMainModuleId := none, selectedSubModuleId := none, zoomedModuleId := none }

/-- A state with a dangling connection endpoint and an orphan sub module. -/
def stDangling : LayoutState :=
  { crewSize := 1,
    mainModules := [mkMod "A"],
    subModules := [mkSub "s1" "ghost" 1],
    connections := [mkConn "c1" "A" "p" "ghost" "q"],
    selectedMainModuleId := none, selectedSubModuleId := none, zoomedModuleId := none }

/-- The structural content of `stThree` with every selection field set. -/
def stThreeSelected : LayoutState :=
  { stThree with
    selectedMainModuleId := some "A"
    selectedSubModuleId := some "s"
    zoomedModuleId := some "B" }

/-! ### Supporting lemmas -/

lemma interval_overlap_iff (s1 a1 s2 a2 t : ℚ) (h1 : t < a1 - s1) (h2 : t < a2 - s2) :
    (s2 + t < a1 ∧ s1 + t < a2) ↔ t < min a1 a2 - max s1 s2 := by
  rcases le_total a1 a2 with h | h <;> rcases le_total s1 s2 with g | g <;>
    simp only [min_eq_left, min_eq_right, max_eq_left, max_eq_right, h, g] <;>
    constructor <;> intro hx <;>
    first
      | exact ⟨by linarith [hx], by linarith [hx]⟩
      | (obtain ⟨p, q⟩ := hx; linarith)

lemma overlap_iff_spec (m1 m2 : PlacedMainModule)
    (h1w : 0.01 < m1.width) (h1d : 0.01 < m1.depth)
    (h2w : 0.01 < m2.width) (h2d : 0.01 < m2.depth) :
    doModulesOverlap m1 m2 = true ↔ specOverlapMoreThanTol m1 m2 := by
  unfold doModulesOverlap specOverlapMoreThanTol getDim
  by_cases r1 : m1.rotation = 90 ∨ m1.rotation = 270 <;>
    by_cases r2 : m2.rotation = 90 ∨ m2.rotation = 270 <;>
    simp only [if_pos, if_neg, r1, r2, ite_true, ite_false, decide_eq_true_eq,
      not_or, not_le, gt_iff_lt] <;>
    rw [← interval_overlap_iff _ _ _ _ _ (by linarith) (by linarith),
        ← interval_overlap_iff _ _ _ _ _ (by linarith) (by linarith)] <;>
    constructor <;> intro hx <;>
    [skip; skip; skip; skip; skip; skip; skip; skip] <;>
    first
      | (obtain ⟨ha, hb, hc, hd⟩ := hx; exact ⟨⟨by linarith, by linarith⟩, by linarith, by linarith⟩)
      | (obtain ⟨⟨ha, hb⟩, hc, hd⟩ := hx; exact ⟨by linarith, by linarith, by linarith, by linarith⟩)

lemma firstDedup_go (l : List String) : ∀ acc : List String, acc.Nodup →
    ((l.foldl (fun acc x => if x ∈ acc then acc else acc ++ [x]) acc).Nodup ∧
     ∀ x, x ∈ l.foldl (fun acc x => if x ∈ acc then acc else acc ++ [x]) acc ↔
       (x ∈ acc ∨ x ∈ l)) := by
  induction l with
  | nil =>
    intro acc h
    exact ⟨h, fun x => by simp⟩
  | cons a l ih =>
    intro acc h
    by_cases ha : a ∈ acc
    · have hrec := ih acc h
      simp only [List.foldl_cons, if_pos ha]
      refine ⟨hrec.1, fun x => ?_⟩
      rw [hrec.2]
      simp only [List.mem_cons]
      constructor
      · rintro (h1 | h1)
        · exact Or.inl h1
        · exact Or.inr (Or.inr h1)
      · rintro (h1 | h1 | h1)
        · exact Or.inl h1
        · exact Or.inl (h1 ▸ ha)
        · exact Or.inr h1
    · have hacc : (acc ++ [a]).Nodup := by
        simp [List.nodup_append, h, ha]
      have hrec := ih (acc ++ [a]) hacc
      simp only [List.foldl_cons, if_neg ha]
      refine ⟨hrec.1, fun x => ?_⟩
      rw [hrec.2]
      simp only [List.mem_append, List.mem_cons, List.mem_singleton]
      tauto

lemma nodup_firstDedup (l : List String) : (firstDedup l).Nodup :=
  (firstDedup_go l [] (by simp)).1

lemma mem_firstDedup (l : List String) (x : String) : x ∈ firstDedup l ↔ x ∈ l := by
  have h := (firstDedup_go l [] (by simp)).2 x
  simpa [firstDedup] using h

lemma pair_sublist_cons (m1 m2 m : PlacedMainModule) (rest : List PlacedMainModule) :
    List.Sublist [m1, m2] (m :: rest) ↔
      (List.Sublist [m1, m2] rest ∨ (m1 = m ∧ m2 ∈ rest)) := by
  constructor
  · intro h
    cases h with
    | cons _ h => exact Or.inl h
    | cons₂ _ h => exact Or.inr ⟨rfl, List.singleton_sublist.1 h⟩
  · rintro (h | ⟨rfl, hm⟩)
    · exact h.cons m
    · exact (List.singleton_sublist.2 hm).cons₂ m1

lemma mem_overlapPairs (mods : List PlacedMainModule) (x : String) :
    x ∈ overlapPairs mods ↔
      ∃ m1 m2, List.Sublist [m1, m2] mods ∧ doModulesOverlap m1 m2 = true ∧
        (x = m1.instanceId ∨ x = m2.instanceId) := by
  induction mods with
  | nil =>
    simp [overlapPairs]
  | cons m rest ih =>
    simp only [overlapPairs, List.mem_append, List.mem_flatMap, List.mem_filter, ih]
    constructor
    · rintro (⟨n, ⟨hn, hov⟩, hx⟩ | ⟨m1, m2, hsub, hov, hx⟩)
      · refine ⟨m, n, ?_, hov, ?_⟩
        · exact (pair_sublist_cons m n m rest).2 (Or.inr ⟨rfl, hn⟩)
        · simpa using hx
      · exact ⟨m1, m2, (pair_sublist_cons m1 m2 m rest).2 (Or.inl hsub), hov, hx⟩
    · rintro ⟨m1, m2, hsub, hov, hx⟩
      rcases (pair_sublist_cons m1 m2 m rest).1 hsub with h | ⟨rfl, hm⟩
      · exact Or.inr ⟨m1, m2, h, hov, hx⟩
      · refine Or.inl ⟨m2, ⟨hm, hov⟩, ?_⟩
        simpa using hx

lemma capacity_moduleId (subs : List PlacedSubModule) (m : PlacedMainModule) :
    ∀ f ∈ capacityFindingsFor subs m, f.moduleId = some m.instanceId := by
  intro f hf
  unfold capacityFindingsFor at hf
  rcases List.mem_append.1 hf with h | h <;> split_ifs at h <;>
    simp only [List.mem_singleton, List.not_mem_nil] at h <;>
    first
      | exact absurd h (by simp)
      | (subst h; rfl)

lemma countP_flatMap_unique (subs : List PlacedSubModule) (mains : List PlacedMainModule)
    (m : PlacedMainModule) (hm : m ∈ mains)
    (hnd : (mains.map (fun x => x.instanceId)).Nodup) (p : ValidationError → Bool)
    (hp : ∀ f, p f = true → f.moduleId = some m.instanceId) :
    (mains.flatMap (capacityFindingsFor subs)).countP p =
      (capacityFindingsFor subs m).countP p := by
  induction mains with
  | nil => cases hm
  | cons a rest ih =>
    simp only [List.map_cons, List.nodup_cons, List.mem_map] at hnd
    rw [List.flatMap_cons, List.countP_append]
    rcases List.mem_cons.1 hm with rfl | hm'
    · have hz : (rest.flatMap (capacityFindingsFor subs)).countP p = 0 := by
        rw [List.countP_eq_zero]
        intro f hf
        obtain ⟨m', hm', hfm⟩ := List.mem_flatMap.1 hf
        intro hpf
        have h1 := hp f hpf
        have h2 := capacity_moduleId subs m' f hfm
        rw [h1] at h2
        exact hnd.1 ⟨m', hm', (Option.some_inj.1 h2).symm⟩
      omega
    · have ha : (capacityFindingsFor subs a).countP p = 0 := by
        rw [List.countP_eq_zero]
        intro f hf hpf
        have h1 := hp f hpf
        have h2 := capacity_moduleId subs a f hf
        rw [h1] at h2
        exact hnd.1 ⟨m, hm', Option.some_inj.1 h2⟩
      rw [ha, ih hm' hnd.2]
      omega

lemma capacity_countP_warn (subs : List PlacedSubModule) (m : PlacedMainModule) :
    (capacityFindingsFor subs m).countP
        (fun f => f.moduleId == some m.instanceId && f.type == Severity.warning) =
      if totalSubVolume subs m > m.volume * 0.9 ∧ totalSubVolume subs m ≤ m.volume
      then 1 else 0 := by
  unfold capacityFindingsFor
  by_cases hw : totalSubVolume subs m > m.volume * 0.9 ∧ totalSubVolume subs m ≤ m.volume <;>
    by_cases he : totalSubVolume subs m > m.volume <;>
    simp [hw, he, capacityWarningFinding, capacityErrorFinding]

lemma capacity_countP_err (subs : List PlacedSubModule) (m : PlacedMainModule) :
    (capacityFindingsFor subs m).countP
        (fun f => f.moduleId == some m.instanceId && f.type == Severity.error) =
      if totalSubVolume subs m > m.volume then 1 else 0 := by
  unfold capacityFindingsFor
  by_cases hw : totalSubVolume subs m > m.volume * 0.9 ∧ totalSubVolume subs m ≤ m.volume <;>
    by_cases he : totalSubVolume subs m > m.volume <;>
    simp [hw, he, capacityWarningFinding, capacityErrorFinding]

lemma connectivity_all_error (s : LayoutState) :
    ∀ f ∈ connectivityFindings s, f.type = Severity.error := by
  intro f hf
  unfold connectivityFindings at hf
  rcases h : findFloatingModules s with _ | ⟨f0, rest⟩ <;> rw [h] at hf <;> simp at hf
  subst hf
  rfl

lemma overlap_all_error (s : LayoutState) :
    ∀ f ∈ overlapFindings s, f.type = Severity.error := by
  intro f hf
  simp only [overlapFindings] at hf
  split_ifs at hf <;> simp at hf
  subst hf
  rfl

lemma crewVolume_all_error (s : LayoutState) :
    ∀ f ∈ crewVolumeFindings s, f.type = Severity.error := by
  intro f hf
  simp only [crewVolumeFindings, validateCrewVolume] at hf
  split_ifs at hf <;> simp at hf
  subst hf
  rfl

lemma essentials_all_error (s : LayoutState) :
    ∀ f ∈ validateEssentials s, f.type = Severity.error := by
  intro f hf
  simp only [validateEssentials] at hf
  split_ifs at hf <;> simp at hf <;>
    first
      | (subst hf; rfl)
      | (rcases hf with hf | hf <;> (subst hf; rfl))
      | (rcases hf with hf | hf | hf <;> (subst hf; rfl))

lemma zClearance_all_error (s : LayoutState) :
    ∀ f ∈ validateZClearance s, f.type = Severity.error := by
  intro f hf
  unfold validateZClearance at hf
  obtain ⟨m, hm, hfm⟩ := List.mem_flatMap.1 hf
  simp only [zClearanceFor] at hfm
  obtain ⟨sub, hsub, hfs⟩ := List.mem_flatMap.1 hfm
  rcases List.mem_append.1 hfs with h | h <;> split_ifs at h <;> simp at h <;>
    (subst h; rfl)

lemma connCheck_all_error (mains : List PlacedMainModule) (conn : Connection) :
    ∀ f ∈ connCheck mains conn, f.type = Severity.error := by
  intro f hf
  unfold connCheck at hf
  split at hf
  · split at hf
    · split_ifs at hf <;> simp at hf
      subst hf
      rfl
    · simp at hf
      subst hf
      rfl
  · simp at hf
    subst hf
    rfl

lemma subCheck_all_error (mains : List PlacedMainModule) (subModule : PlacedSubModule) :
    ∀ f ∈ subCheck mains subModule, f.type = Severity.error := by
  intro f hf
  unfold subCheck at hf
  split at hf
  · simp at hf
    subst hf
    rfl
  · split_ifs at hf <;> simp at hf
    subst hf
    rfl

lemma portLimits_all_error (s : LayoutState) :
    ∀ f ∈ validatePortLimits s, f.type = Severity.error := by
  intro f hf
  unfold validatePortLimits at hf
  obtain ⟨p, hp, hfp⟩ := List.mem_filterMap.1 hf
  split_ifs at hfp
  simp at hfp
  subst hfp
  rfl

lemma capacity_error_or_band (s : LayoutState) :
    ∀ f ∈ validateParentCapacity s, f.type = Severity.error ∨
      ∃ m ∈ s.mainModules,
        totalSubVolume s.subModules m > m.volume * 0.9 ∧
        totalSubVolume s.subModules m ≤ m.volume ∧
        f = capacityWarningFinding m (totalSubVolume s.subModules m) := by
  intro f hf
  unfold validateParentCapacity at hf
  obtain ⟨m, hm, hfm⟩ := List.mem_flatMap.1 hf
  unfold capacityFindingsFor at hfm
  rcases List.mem_append.1 hfm with h | h <;> split_ifs at h with hc <;> simp at h
  · exact Or.inr ⟨m, hm, hc.1, hc.2, h⟩
  · subst h
    exact Or.inl rfl

lemma firstDedup_append_one (l : List String) (x : String) :
    firstDedup (l ++ [x]) = if x ∈ l then firstDedup l else firstDedup l ++ [x] := by
  have key : firstDedup (l ++ [x]) =
      if x ∈ firstDedup l then firstDedup l else firstDedup l ++ [x] := by
    unfold firstDedup
    rw [List.foldl_append]
    rfl
  rw [key]
  by_cases h : x ∈ l
  · rw [if_pos ((mem_firstDedup l x).2 h), if_pos h]
  · rw [if_neg (fun hx => h ((mem_firstDedup l x).1 hx)), if_neg h]

lemma counterOf_append_one (l : List String) (x : String) :
    counterOf (l ++ [x]) = bumpKey (counterOf l) x := by
  unfold counterOf bumpKey
  by_cases h : x ∈ l
  · have hany : ((firstDedup l).map (fun k => (k, l.count k))).any (fun p => p.1 == x) = true := by
      rw [List.any_eq_true]
      exact ⟨(x, l.count x), List.mem_map.2 ⟨x, (mem_firstDedup l x).2 h, rfl⟩, by simp⟩
    rw [if_pos hany, firstDedup_append_one, if_pos h, List.map_map]
    apply List.map_congr_left
    intro k hk
    simp only [Function.comp_apply]
    by_cases hkx : k = x
    · subst hkx
      simp [List.count_append]
    · have hne : (k == x) = false := by simp [hkx]
      simp [hne, List.count_append, hkx]
  · have hany : ((firstDedup l).map (fun k => (k, l.count k))).any (fun p => p.1 == x) = false := by
      rw [List.any_eq_false]
      rintro ⟨k, n⟩ hp hkx
      obtain ⟨k0, hk0, hk0e⟩ := List.mem_map.1 hp
      injection hk0e with h1 h2
      subst h1
      rw [beq_iff_eq] at hkx
      exact h (hkx ▸ (mem_firstDedup l k0).1 hk0)
    rw [if_neg (by rw [hany]; exact Bool.false_ne_true), firstDedup_append_one, if_neg h,
      List.map_append]
    congr 1
    · apply List.map_congr_left
      intro k hk
      have hkl : k ∈ l := (mem_firstDedup l k).1 hk
      have hkx : k ≠ x := fun he => h (he ▸ hkl)
      simp [List.count_append, hkx]
    · simp [List.count_append, List.count_eq_zero_of_not_mem h]

lemma portUsage_eq (conns : List Connection) :
    portUsage conns = counterOf (endpointKeys conns) := by
  suffices h : ∀ pre : List String,
      conns.foldl (fun usage conn =>
        bumpKey (bumpKey usage (conn.fromModuleId ++ ":" ++ conn.fromPortId))
          (conn.toModuleId ++ ":" ++ conn.toPortId)) (counterOf pre) =
      counterOf (pre ++ endpointKeys conns) by
    have h0 := h []
    simpa [portUsage, counterOf, firstDedup] using h0
  induction conns with
  | nil => intro pre; simp [endpointKeys]
  | cons c rest ih =>
    intro pre
    rw [List.foldl_cons, ← counterOf_append_one, ← counterOf_append_one, ih]
    congr 1
    simp [endpointKeys]

lemma filterMap_ite_eq_filter_map {α β : Type} (l : List α) (p : α → Bool) (g : α → β) :
    l.filterMap (fun a => if p a then some (g a) else none) = (l.filter p).map g := by
  induction l with
  | nil => rfl
  | cons a t ih =>
    by_cases h : p a <;> simp [List.filterMap_cons, List.filter_cons, h, ih]

lemma foldConns_decomp (current : String) (l : List Connection) :
    ∀ V rest : List String, current ∈ V →
    ∃ P : List String,
      l.foldl (visitConn current) (V, rest) = (P ++ V, P ++ rest) ∧
      P.Nodup ∧
      (∀ x ∈ P, x ∉ V) ∧
      (∀ x ∈ P, ∃ conn ∈ l,
        (conn.fromModuleId = current ∧ conn.toModuleId = x) ∨
        (conn.toModuleId = current ∧ conn.fromModuleId = x)) ∧
      (∀ conn ∈ l,
        (conn.fromModuleId = current → conn.toModuleId ∈ P ++ V) ∧
        (conn.toModuleId = current → conn.fromModuleId ∈ P ++ V)) := by
  induction l with
  | nil =>
    intro V rest hcur
    exact ⟨[], rfl, List.nodup_nil, by simp, by simp, by simp⟩
  | cons c l ih =>
    intro V rest hcur
    rw [List.foldl_cons]
    by_cases h1 : c.fromModuleId = current ∧ c.toModuleId ∉ V
    · have hstep : visitConn current (V, rest) c = (c.toModuleId :: V, c.toModuleId :: rest) := by
        unfold visitConn
        exact if_pos h1
      rw [hstep]
      obtain ⟨P, heq, hnd, hfresh, hedge, hcl⟩ :=
        ih (c.toModuleId :: V) (c.toModuleId :: rest) (List.mem_cons_of_mem _ hcur)
      refine ⟨P ++ [c.toModuleId], ?_, ?_, ?_, ?_, ?_⟩
      · rw [heq]
        simp [List.append_assoc]
      · rw [List.nodup_append]
        refine ⟨hnd, List.nodup_singleton _, fun x hx hx2 => ?_⟩
        rw [List.mem_singleton] at hx2
        subst hx2
        exact hfresh _ hx (List.mem_cons_self _ _)
      · intro x hx
        rcases List.mem_append.1 hx with hx | hx
        · exact fun hv => hfresh x hx (List.mem_cons_of_mem _ hv)
        · rw [List.mem_singleton] at hx
          subst hx
          exact h1.2
      · intro x hx
        rcases List.mem_append.1 hx with hx | hx
        · obtain ⟨conn, hc, ho⟩ := hedge x hx
          exact ⟨conn, List.mem_cons_of_mem _ hc, ho⟩
        · rw [List.mem_singleton] at hx
          subst hx
          exact ⟨c, List.mem_cons_self _ _, Or.inl ⟨h1.1, rfl⟩⟩
      · intro conn hconn
        rcases List.mem_cons.1 hconn with rfl | hconn'
        · constructor
          · intro _
            simp
          · intro _
            rw [h1.1]
            simp [hcur]
        · have hline := hcl conn hconn'
          constructor
          · intro hfrom
            have h2 := hline.1 hfrom
            simpa [List.append_assoc] using h2
          · intro hto
            have h2 := hline.2 hto
            simpa [List.append_assoc] using h2
    · by_cases h2 : c.toModuleId = current ∧ c.fromModuleId ∉ V
      · have hstep : visitConn current (V, rest) c =
            (c.fromModuleId :: V, c.fromModuleId :: rest) := by
          unfold visitConn
          rw [if_neg h1]
          exact if_pos h2
        rw [hstep]
        obtain ⟨P, heq, hnd, hfresh, hedge, hcl⟩ :=
          ih (c.fromModuleId :: V) (c.fromModuleId :: rest) (List.mem_cons_of_mem _ hcur)
        refine ⟨P ++ [c.fromModuleId], ?_, ?_, ?_, ?_, ?_⟩
        · rw [heq]
          simp [List.append_assoc]
        · rw [List.nodup_append]
          refine ⟨hnd, List.nodup_singleton _, fun x hx hx2 => ?_⟩
          rw [List.mem_singleton] at hx2
          subst hx2
          exact hfresh _ hx (List.mem_cons_self _ _)
        · intro x hx
          rcases List.mem_append.1 hx with hx | hx
          · exact fun hv => hfresh x hx (List.mem_cons_of_mem _ hv)
          · rw [List.mem_singleton] at hx
            subst hx
            exact h2.2
        · intro x hx
          rcases List.mem_append.1 hx with hx | hx
          · obtain ⟨conn, hc, ho⟩ := hedge x hx
            exact ⟨conn, List.mem_cons_of_mem _ hc, ho⟩
          · rw [List.mem_singleton] at hx
            subst hx
            exact ⟨c, List.mem_cons_self _ _, Or.inr ⟨h2.1, rfl⟩⟩
        · intro conn hconn
          rcases List.mem_cons.1 hconn with rfl | hconn'
          · constructor
            · intro hfrom
              rw [hfrom] at h1
              have : conn.toModuleId ∈ V := by
                by_contra hc
                exact h1 ⟨rfl, hc⟩
              simp [this]
            · intro _
              simp
          · have hline := hcl conn hconn'
            constructor
            · intro hfrom
              have h3 := hline.1 hfrom
              simpa [List.append_assoc] using h3
            · intro hto
              have h3 := hline.2 hto
              simpa [List.append_assoc] using h3
      · have hstep : visitConn current (V, rest) c = (V, rest) := by
          unfold visitConn
          rw [if_neg h1]
          exact if_neg h2
        rw [hstep]
        obtain ⟨P, heq, hnd, hfresh, hedge, hcl⟩ := ih V rest hcur
        refine ⟨P, heq, hnd, hfresh, ?_, ?_⟩
        · intro x hx
          obtain ⟨conn, hc, ho⟩ := hedge x hx
          exact ⟨conn, List.mem_cons_of_mem _ hc, ho⟩
        · intro conn hconn
          rcases List.mem_cons.1 hconn with rfl | hconn'
          · constructor
            · intro hfrom
              rw [hfrom] at h1
              have : conn.toModuleId ∈ V := by
                by_contra hc
                exact h1 ⟨rfl, hc⟩
              exact List.mem_append.2 (Or.inr this)
            · intro hto
              rw [hto] at h2
              have : conn.fromModuleId ∈ V := by
                by_contra hc
                exact h2 ⟨rfl, hc⟩
              exact List.mem_append.2 (Or.inr this)
          · exact hcl conn hconn'

lemma filter_length_mono (l : List String) (p q : String → Bool)
    (h : ∀ x, q x = true → p x = true) :
    (l.filter q).length ≤ (l.filter p).length := by
  induction l with
  | nil => simp
  | cons a t ih =>
    rw [List.filter_cons, List.filter_cons]
    by_cases hq : q a = true
    · rw [if_pos hq, if_pos (h a hq)]
      simpa using ih
    · rw [if_neg hq]
      by_cases hp : p a = true
      · rw [if_pos hp]
        exact le_trans ih (by simp)
      · rw [if_neg hp]
        exact ih

lemma length_filter_lt_of_cons (l V : List String) (x : String) (hx : x ∈ l) (hxV : x ∉ V) :
    (l.filter (fun y => decide (y ∉ x :: V))).length + 1 ≤
      (l.filter (fun y => decide (y ∉ V))).length := by
  induction l with
  | nil => cases hx
  | cons a t ih =>
    rw [List.filter_cons, List.filter_cons]
    rcases List.mem_cons.1 hx with rfl | hxt
    · rw [if_neg (by simp), if_pos (by simpa using hxV)]
      have hmono := filter_length_mono t (fun y => decide (y ∉ V)) (fun y => decide (y ∉ x :: V))
        (fun y hy => by
          simp only [decide_eq_true_eq] at hy ⊢
          exact fun hmem => hy (List.mem_cons_of_mem _ hmem))
      simp only [List.length_cons]
      omega
    · by_cases haV : a ∈ V
      · rw [if_neg (by simp [haV]), if_neg (by simp [haV])]
        exact ih hxt
      · by_cases hax : a = x
        · subst hax
          rw [if_neg (by simp), if_pos (by simpa using haV)]
          have hmono := filter_length_mono t (fun y => decide (y ∉ V))
            (fun y => decide (y ∉ a :: V))
            (fun y hy => by
              simp only [decide_eq_true_eq] at hy ⊢
              exact fun hmem => hy (List.mem_cons_of_mem _ hmem))
          simp only [List.length_cons]
          omega
        · rw [if_pos (by simp [haV, hax]), if_pos (by simpa using haV)]
          have := ih hxt
          simp only [List.length_cons]
          omega

lemma endpoint_mem_allIds (conns : List Connection) (conn : Connection) (hc : conn ∈ conns) :
    conn.fromModuleId ∈ allIds conns ∧ conn.toModuleId ∈ allIds conns := by
  constructor <;> (rw [allIds, List.mem_flatMap]; exact ⟨conn, hc, by simp⟩)

lemma missingCount_cons (conns : List Connection) (V : List String) (x : String)
    (hx : x ∈ allIds conns) (hxV : x ∉ V) :
    missingCount conns (x :: V) + 1 ≤ missingCount conns V :=
  length_filter_lt_of_cons (allIds conns) V x hx hxV

lemma missingCount_append (conns : List Connection) (P V : List String) (hnd : P.Nodup)
    (hall : ∀ x ∈ P, x ∈ allIds conns) (hPV : ∀ x ∈ P, x ∉ V) :
    missingCount conns (P ++ V) + P.length ≤ missingCount conns V := by
  induction P with
  | nil => simp
  | cons p P ih =>
    rw [List.nodup_cons] at hnd
    have h1 : missingCount conns (p :: (P ++ V)) + 1 ≤ missingCount conns (P ++ V) := by
      refine missingCount_cons conns (P ++ V) p (hall p (List.mem_cons_self _ _)) ?_
      intro hmem
      rcases List.mem_append.1 hmem with h | h
      · exact hnd.1 h
      · exact hPV p (List.mem_cons_self _ _) h
    have h2 := ih hnd.2 (fun x hx => hall x (List.mem_cons_of_mem _ hx))
      (fun x hx => hPV x (List.mem_cons_of_mem _ hx))
    simp only [List.cons_append, List.length_cons]
    omega

lemma allIds_length (conns : List Connection) : (allIds conns).length = 2 * conns.length := by
  induction conns with
  | nil => rfl
  | cons c rest ih =>
    simp [allIds, List.flatMap_cons] at ih ⊢
    omega

lemma bfsLoop_spec (conns : List Connection) (root : String) :
    ∀ (fuel : ℕ) (V stack : List String),
      (∀ x ∈ stack, x ∈ V) → root ∈ V →
      (∀ x ∈ V, Reaches conns root x) →
      StackClosed conns V stack →
      2 * missingCount conns V + stack.length ≤ fuel →
      (∀ x ∈ V, x ∈ bfsLoop conns fuel V stack) ∧
      (∀ x ∈ bfsLoop conns fuel V stack, Reaches conns root x) ∧
      StackClosed conns (bfsLoop conns fuel V stack) [] := by
  intro fuel
  induction fuel with
  | zero =>
    intro V stack hsub hroot hreach hclosed hbound
    have hstack : stack = [] := List.length_eq_zero.1 (by omega)
    subst hstack
    exact ⟨fun x hx => hx, hreach, hclosed⟩
  | succ fuel ih =>
    intro V stack hsub hroot hreach hclosed hbound
    cases stack with
    | nil => exact ⟨fun x hx => hx, hreach, hclosed⟩
    | cons current rest =>
      have hcur : current ∈ V := hsub current (List.mem_cons_self _ _)
      obtain ⟨P, heq, hnd, hfresh, hedge, hcl⟩ := foldConns_decomp current conns V rest hcur
      have hunfold : bfsLoop conns (fuel + 1) V (current :: rest) =
          bfsLoop conns fuel (P ++ V) (P ++ rest) := by
        show bfsLoop conns fuel (conns.foldl (visitConn current) (V, rest)).1
            (conns.foldl (visitConn current) (V, rest)).2 = _
        rw [heq]
      have hallP : ∀ x ∈ P, x ∈ allIds conns := by
        intro x hx
        obtain ⟨conn, hc, ho⟩ := hedge x hx
        rcases ho with ⟨_, ht⟩ | ⟨_, ht⟩
        · exact ht ▸ (endpoint_mem_allIds conns conn hc).2
        · exact ht ▸ (endpoint_mem_allIds conns conn hc).1
      have hsub' : ∀ x ∈ P ++ rest, x ∈ P ++ V := by
        intro x hx
        rcases List.mem_append.1 hx with h | h
        · exact List.mem_append.2 (Or.inl h)
        · exact List.mem_append.2 (Or.inr (hsub x (List.mem_cons_of_mem _ h)))
      have hroot' : root ∈ P ++ V := List.mem_append.2 (Or.inr hroot)
      have hreach' : ∀ x ∈ P ++ V, Reaches conns root x := by
        intro x hx
        rcases List.mem_append.1 hx with h | h
        · obtain ⟨conn, hc, ho⟩ := hedge x h
          exact Reaches.step current x (hreach current hcur) ⟨conn, hc, ho⟩
        · exact hreach x h
      have hclosed' : StackClosed conns (P ++ V) (P ++ rest) := by
        intro conn hconn
        have hline := hcl conn hconn
        have hold := hclosed conn hconn
        constructor
        · intro hin hnotin
          rcases List.mem_append.1 hin with hP | hV
          · exact absurd (List.mem_append.2 (Or.inl hP)) hnotin
          · by_cases hx : conn.fromModuleId = current
            · exact hline.1 hx
            · have hnot : conn.fromModuleId ∉ current :: rest := by
                intro hmem
                rcases List.mem_cons.1 hmem with h | h
                · exact hx h
                · exact hnotin (List.mem_append.2 (Or.inr h))
              exact List.mem_append.2 (Or.inr (hold.1 hV hnot))
        · intro hin hnotin
          rcases List.mem_append.1 hin with hP | hV
          · exact absurd (List.mem_append.2 (Or.inl hP)) hnotin
          · by_cases hx : conn.toModuleId = current
            · exact hline.2 hx
            · have hnot : conn.toModuleId ∉ current :: rest := by
                intro hmem
                rcases List.mem_cons.1 hmem with h | h
                · exact hx h
                · exact hnotin (List.mem_append.2 (Or.inr h))
              exact List.mem_append.2 (Or.inr (hold.2 hV hnot))
      have hbound' : 2 * missingCount conns (P ++ V) + (P ++ rest).length ≤ fuel := by
        have hmc := missingCount_append conns P V hnd hallP hfresh
        rw [List.length_append]
        simp only [List.length_cons] at hbound
        omega
      have hmain := ih (P ++ V) (P ++ rest) hsub' hroot' hreach' hclosed' hbound'
      rw [hunfold]
      exact ⟨fun x hx => hmain.1 x (List.mem_append.2 (Or.inr hx)), hmain.2.1, hmain.2.2⟩

lemma mem_bfs_iff_reaches (conns : List Connection) (root : String) (x : String) :
    x ∈ bfsLoop conns (bfsFuel conns) [root] [root] ↔ Reaches conns root x := by
  have hspec := bfsLoop_spec conns root (bfsFuel conns) [root] [root]
    (fun y hy => hy) (List.mem_singleton.2 rfl)
    (by
      intro y hy
      rw [List.mem_singleton] at hy
      subst hy
      exact Reaches.refl)
    (by
      intro conn hconn
      constructor <;> (intro h1 h2; exact absurd h1 h2))
    (by
      have h1 : missingCount conns [root] ≤ (allIds conns).length := by
        unfold missingCount
        exact le_trans (List.length_filter_le _ _) le_rfl
      rw [allIds_length] at h1
      unfold bfsFuel
      simp only [List.length_singleton]
      omega)
  constructor
  · exact hspec.2.1 x
  · intro hr
    induction hr with
    | refl => exact hspec.1 root (List.mem_singleton.2 rfl)
    | step b c hb hedge ihb =>
      obtain ⟨conn, hconn, ho⟩ := hedge
      rcases ho with ⟨hf, ht⟩ | ⟨hf, ht⟩
      · have := (hspec.2.2 conn hconn).1 (by rw [hf]; exact ihb) (by simp)
        rwa [ht] at this
      · have := (hspec.2.2 conn hconn).2 (by rw [hf]; exact ihb) (by simp)
        rwa [ht] at this

lemma reaches_nil_iff (root x : String) : Reaches [] root x ↔ x = root := by
  constructor
  · intro h
    induction h with
    | refl => rfl
    | step b c hb he ih =>
      obtain ⟨conn, hc, _⟩ := he
      cases hc
  · rintro rfl
    exact Reaches.refl

lemma findFloating_cases (s : LayoutState) :
    (s.mainModules.length ≤ 1 → findFloatingModules s = []) ∧
    (¬ s.mainModules.length ≤ 1 → s.connections.length = 0 →
      findFloatingModules s = (s.mainModules.drop 1).map (fun m => m.instanceId)) ∧
    (∀ m0 t, s.mainModules = m0 :: t → ¬ s.mainModules.length ≤ 1 →
      ¬ s.connections.length = 0 →
      findFloatingModules s = (s.mainModules.filter (fun m =>
        decide (m.instanceId ∉ bfsLoop s.connections (bfsFuel s.connections)
          [m0.instanceId] [m0.instanceId]))).map (fun m => m.instanceId)) := by
  refine ⟨?_, ?_, ?_⟩
  · intro h
    unfold findFloatingModules
    rw [if_pos h]
  · intro h1 h2
    unfold findFloatingModules
    rw [if_neg h1, if_pos h2]
  · intro m0 t hm h1 h2
    unfold findFloatingModules
    rw [if_neg h1, if_neg h2, hm]

lemma rootId_cons (s : LayoutState) (m0 : PlacedMainModule) (t : List PlacedMainModule)
    (hm : s.mainModules = m0 :: t) : rootId s = m0.instanceId := by
  unfold rootId
  rw [hm]

lemma findFloating_mem (s : LayoutState) (hnd : (mainIdsOf s).Nodup) (x : String) :
    x ∈ findFloatingModules s ↔
      (x ∈ mainIdsOf s ∧ ¬ Reaches s.connections (rootId s) x) := by
  obtain ⟨hA, hB, hC⟩ := findFloating_cases s
  by_cases hlen : s.mainModules.length ≤ 1
  · rw [hA hlen]
    simp only [List.not_mem_nil, false_iff]
    rintro ⟨hmem, hnr⟩
    cases hm : s.mainModules with
    | nil =>
      rw [mainIdsOf, hm] at hmem
      cases hmem
    | cons m0 t =>
      have ht : t = [] := by
        rw [hm] at hlen
        simp only [List.length_cons] at hlen
        exact List.length_eq_zero.1 (by omega)
      subst ht
      rw [mainIdsOf, hm] at hmem
      simp only [List.map_cons, List.map_nil, List.mem_singleton] at hmem
      subst hmem
      rw [rootId_cons s m0 [] hm] at hnr
      exact hnr Reaches.refl
  · cases hm : s.mainModules with
    | nil =>
      rw [hm] at hlen
      simp at hlen
    | cons m0 t =>
      have hroot := rootId_cons s m0 t hm
      by_cases hconn : s.connections.length = 0
      · have hconn' : s.connections = [] := List.length_eq_zero.1 hconn
        rw [hB hlen hconn, hm]
        simp only [List.drop_succ_cons, List.drop_zero]
        rw [mainIdsOf, hm, hroot, hconn']
        simp only [List.map_cons, List.mem_cons]
        rw [mainIdsOf, hm] at hnd
        simp only [List.map_cons, List.nodup_cons] at hnd
        constructor
        · intro hx
          refine ⟨Or.inr hx, ?_⟩
          rw [reaches_nil_iff]
          intro hxe
          exact hnd.1 (hxe ▸ hx)
        · rintro ⟨hx | hx, hnr⟩
          · rw [reaches_nil_iff] at hnr
            exact absurd hx hnr
          · exact hx
      · rw [hC m0 t hm hlen hconn, hm]
        rw [mainIdsOf, hm, hroot]
        simp only [List.mem_map, List.mem_filter, decide_eq_true_eq]
        constructor
        · rintro ⟨m, ⟨hmem, hnv⟩, rfl⟩
          refine ⟨⟨m, hmem, rfl⟩, ?_⟩
          rw [← mem_bfs_iff_reaches]
          exact hnv
        · rintro ⟨⟨m, hmem, rfl⟩, hnr⟩
          rw [← mem_bfs_iff_reaches] at hnr
          exact ⟨m, ⟨hmem, hnr⟩, rfl⟩

lemma findFloating_sublist (s : LayoutState) :
    List.Sublist (findFloatingModules s) (mainIdsOf s) := by
  obtain ⟨hA, hB, hC⟩ := findFloating_cases s
  by_cases hlen : s.mainModules.length ≤ 1
  · rw [hA hlen]
    exact List.nil_sublist _
  · by_cases hconn : s.connections.length = 0
    · rw [hB hlen hconn]
      exact (List.drop_sublist 1 s.mainModules).map _
    · cases hm : s.mainModules with
      | nil =>
        rw [hm] at hlen
        simp at hlen
      | cons m0 t =>
        rw [hC m0 t hm hlen hconn]
        exact (List.filter_sublist _).map _

/-! ### The claims -/

/-- Claim C1, amended: for every layout state whose main modules carry pairwise
distinct instance ids, the connectivity check reports exactly one error finding
iff at least two main modules exist and some main module is unreachable from the
first one in the undirected graph over arbitrary ids whose edges are the
connections (a path may pass through ids that are not placed modules); the
floating list is the sublist of the instance ids, in insertion order, of exactly
the unreachable modules, the message counts them, the finding is tagged with the
first of them; with at most one main module there is no finding, and with more
than one module but zero connections every module except the first is floating. -/
theorem claim_C1 (s : LayoutState) (hnd : (mainIdsOf s).Nodup) :
    ((connectivityFindings s).length = 1 ↔
      (2 ≤ s.mainModules.length ∧
        ∃ m ∈ s.mainModules, ¬ Reaches s.connections (rootId s) m.instanceId)) ∧
    List.Sublist (findFloatingModules s) (mainIdsOf s) ∧
    (∀ x, x ∈ findFloatingModules s ↔
      (x ∈ mainIdsOf s ∧ ¬ Reaches s.connections (rootId s) x)) ∧
    (∀ f ∈ connectivityFindings s,
      f.type = Severity.error ∧
      f.message = msgFloating (findFloatingModules s).length ∧
      f.moduleId = (findFloatingModules s).head?) ∧
    (s.mainModules.length ≤ 1 → connectivityFindings s = []) ∧
    (2 ≤ s.mainModules.length → s.connections = [] →
      findFloatingModules s = (s.mainModules.drop 1).map (fun m => m.instanceId)) := by
  obtain ⟨hA, hB, hC⟩ := findFloating_cases s
  refine ⟨?_, findFloating_sublist s, findFloating_mem s hnd, ?_, ?_, ?_⟩
  · cases hf : findFloatingModules s with
    | nil =>
      rw [connectivityFindings, hf]
      simp only [List.length_nil]
      constructor
      · intro h
        cases h
      · rintro ⟨hlen, m, hm, hnr⟩
        have hmem : m.instanceId ∈ findFloatingModules s :=
          (findFloating_mem s hnd m.instanceId).2
            ⟨List.mem_map.2 ⟨m, hm, rfl⟩, hnr⟩
        rw [hf] at hmem
        cases hmem
    | cons f0 rest =>
      rw [connectivityFindings, hf]
      refine ⟨fun _ => ?_, fun _ => rfl⟩
      · have hf0 : f0 ∈ findFloatingModules s := by
          rw [hf]
          exact List.mem_cons_self _ _
        obtain ⟨hmem, hnr⟩ := (findFloating_mem s hnd f0).1 hf0
        obtain ⟨m, hm, hme⟩ := List.mem_map.1 hmem
        constructor
        · by_contra hlen
          have := hA (by omega)
          rw [this] at hf
          cases hf
        · exact ⟨m, hm, hme ▸ hnr⟩
  · intro f hfmem
    cases hf : findFloatingModules s with
    | nil =>
      rw [connectivityFindings, hf] at hfmem
      cases hfmem
    | cons f0 rest =>
      rw [connectivityFindings, hf] at hfmem
      rw [List.mem_singleton] at hfmem
      subst hfmem
      exact ⟨rfl, rfl, rfl⟩
  · intro hlen
    rw [connectivityFindings, hA hlen]
  · intro hlen hconn
    exact hB (by omega) (by rw [hconn]; rfl)

/-- Witness for C1: the amended theorem instantiated at the concrete state with
modules A, B, C and a single connection between A and B. -/
theorem claim_C1_witness :
    (mainIdsOf stThree).Nodup ∧
    (((connectivityFindings stThree).length = 1 ↔
      (2 ≤ stThree.mainModules.length ∧
        ∃ m ∈ stThree.mainModules,
          ¬ Reaches stThree.connections (rootId stThree) m.instanceId)) ∧
    List.Sublist (findFloatingModules stThree) (mainIdsOf stThree) ∧
    (∀ x, x ∈ findFloatingModules stThree ↔
      (x ∈ mainIdsOf stThree ∧ ¬ Reaches stThree.connections (rootId stThree) x)) ∧
    (∀ f ∈ connectivityFindings stThree,
      f.type = Severity.error ∧
      f.message = msgFloating (findFloatingModules stThree).length ∧
      f.moduleId = (findFloatingModules stThree).head?) ∧
    (stThree.mainModules.length ≤ 1 → connectivityFindings stThree = []) ∧
    (2 ≤ stThree.mainModules.length → stThree.connections = [] →
      findFloatingModules stThree =
        (stThree.mainModules.drop 1).map (fun m => m.instanceId))) :=
  ⟨of_decide_eq_true (by with_unfolding_all rfl),
    claim_C1 stThree (of_decide_eq_true (by with_unfolding_all rfl))⟩

/-- Counterexample to C1 as stated: in `stViaGhost` the modules A and C are
joined only through the dangling id X, so C is unreachable from A in the graph
whose nodes are the main-module instance ids alone, two main modules exist, and
yet the connectivity check of the code reports nothing, because its traversal
walks through X. -/
theorem claim_C1_cex :
    2 ≤ stViaGhost.mainModules.length ∧
    (∃ m ∈ stViaGhost.mainModules,
      ¬ ReachesOnModuleNodes stViaGhost (rootId stViaGhost) m.instanceId) ∧
    connectivityFindings stViaGhost = [] := by
  have key : ∀ b, ReachesOnModuleNodes stViaGhost "A" b → b = "A" := by
    intro b hb
    induction hb with
    | refl => rfl
    | step b c hb hedge ihb =>
      exfalso
      subst ihb
      obtain ⟨hbmem, hcmem, conn, hconn, ho⟩ := hedge
      have hconns : stViaGhost.connections =
          [mkConn "c1" "A" "p" "X" "q", mkConn "c2" "X" "r" "C" "s"] := rfl
      rw [hconns] at hconn
      have hids : mainIdsOf stViaGhost = (["A", "C"] : List String) := rfl
      rw [hids] at hcmem
      rcases List.mem_cons.1 hconn with rfl | hconn2
      · rcases ho with ⟨hf, ht⟩ | ⟨hf, ht⟩
        · subst ht
          exact absurd hcmem (by decide)
        · exact absurd hf (by decide)
      · rw [List.mem_singleton] at hconn2
        subst hconn2
        rcases ho with ⟨hf, ht⟩ | ⟨hf, ht⟩
        · exact absurd hf (by decide)
        · exact absurd hf (by decide)
  refine ⟨of_decide_eq_true (by with_unfolding_all rfl), ⟨mkMod "C",
    of_decide_eq_true (by with_unfolding_all rfl), ?_⟩, by with_unfolding_all rfl⟩
  intro hreach
  have hroot : rootId stViaGhost = "A" := rfl
  rw [hroot] at hreach
  exact absurd (key (mkMod "C").instanceId hreach) (by decide)

/-- Claim C2: for modules whose width and depth exceed the 0.01 m tolerance,
`doModulesOverlap` flags a pair iff the rotation-adjusted footprints overlap by
more than the tolerance on both axes; the two 1 by 1 examples at (0,0)/(0.5,0.5)
and (0,0)/(1,0) are flagged and not flagged respectively; the flagged-id list of
`checkMainModuleOverlaps` has no duplicates, contains exactly the ids involved
in some overlapping pair, and a nonempty list yields exactly one error finding
whose message counts it. -/
theorem claim_C2 :
    (∀ m1 m2 : PlacedMainModule,
       0.01 < m1.width → 0.01 < m1.depth → 0.01 < m2.width → 0.01 < m2.depth →
       (doModulesOverlap m1 m2 = true ↔ specOverlapMoreThanTol m1 m2)) ∧
    doModulesOverlap (sqAt "u" 0 0) (sqAt "v" 0.5 0.5) = true ∧
    doModulesOverlap (sqAt "u" 0 0) (sqAt "v" 1.0 0) = false ∧
    (∀ s : LayoutState,
       (checkMainModuleOverlaps s.mainModules).Nodup ∧
       (∀ x, x ∈ checkMainModuleOverlaps s.mainModules ↔
          ∃ m1 m2, List.Sublist [m1, m2] s.mainModules ∧ doModulesOverlap m1 m2 = true ∧
            (x = m1.instanceId ∨ x = m2.instanceId)) ∧
       (checkMainModuleOverlaps s.mainModules = [] → overlapFindings s = []) ∧
       (checkMainModuleOverlaps s.mainModules ≠ [] →
          overlapFindings s =
            [{ type := Severity.error
               message := msgOverlap (checkMainModuleOverlaps s.mainModules).length
               moduleId := none }])) := by
  refine ⟨overlap_iff_spec, by with_unfolding_all rfl, by with_unfolding_all rfl,
    fun s => ⟨nodup_firstDedup _, fun x => ?_, ?_, ?_⟩⟩
  · rw [checkMainModuleOverlaps, mem_firstDedup]
    exact mem_overlapPairs s.mainModules x
  · intro h
    simp [overlapFindings, h]
  · intro h
    have hlen : 0 < (checkMainModuleOverlaps s.mainModules).length := List.length_pos.2 h
    simp [overlapFindings, hlen]

/-- Witness for C2: the overlap equivalence applied to the two concrete
1 by 1 modules at (0,0) and (0.5,0.5). -/
theorem claim_C2_witness :
    (0.01 : ℚ) < (sqAt "u" 0 0).width ∧ (0.01 : ℚ) < (sqAt "u" 0 0).depth ∧
    (0.01 : ℚ) < (sqAt "v" 0.5 0.5).width ∧ (0.01 : ℚ) < (sqAt "v" 0.5 0.5).depth ∧
    (doModulesOverlap (sqAt "u" 0 0) (sqAt "v" 0.5 0.5) = true ↔
      specOverlapMoreThanTol (sqAt "u" 0 0) (sqAt "v" 0.5 0.5)) :=
  ⟨of_decide_eq_true (by with_unfolding_all rfl), of_decide_eq_true (by with_unfolding_all rfl),
   of_decide_eq_true (by with_unfolding_all rfl), of_decide_eq_true (by with_unfolding_all rfl),
   claim_C2.1 (sqAt "u" 0 0) (sqAt "v" 0.5 0.5)
     (of_decide_eq_true (by with_unfolding_all rfl)) (of_decide_eq_true (by with_unfolding_all rfl))
     (of_decide_eq_true (by with_unfolding_all rfl)) (of_decide_eq_true (by with_unfolding_all rfl))⟩

/-- Claim C3: for a placed main module m of a state with distinct instance ids,
letting S be the volume sum of its direct sub-module children, the capacity rule
emits exactly one warning tagged m iff S is above 0.9 of the volume and at most
the volume, exactly one error tagged m iff S exceeds the volume, the two
conditions exclude each other, and the messages state the percentage
respectively both values to one decimal. -/
theorem claim_C3 (s : LayoutState) (m : PlacedMainModule) (hm : m ∈ s.mainModules)
    (hnd : (mainIdsOf s).Nodup) :
    ((validateParentCapacity s).countP
        (fun f => f.moduleId == some m.instanceId && f.type == Severity.warning) =
      if totalSubVolume s.subModules m > m.volume * 0.9 ∧ totalSubVolume s.subModules m ≤ m.volume
      then 1 else 0) ∧
    ((validateParentCapacity s).countP
        (fun f => f.moduleId == some m.instanceId && f.type == Severity.error) =
      if totalSubVolume s.subModules m > m.volume then 1 else 0) ∧
    ¬((totalSubVolume s.subModules m > m.volume * 0.9 ∧ totalSubVolume s.subModules m ≤ m.volume) ∧
      totalSubVolume s.subModules m > m.volume) ∧
    (∀ f ∈ capacityFindingsFor s.subModules m, f.type = Severity.warning →
       f.message = msgCapacityWarn m.shortName
         (jsRound (totalSubVolume s.subModules m / m.volume * 100))) ∧
    (∀ f ∈ capacityFindingsFor s.subModules m, f.type = Severity.error →
       f.message = msgCapacityErr m.shortName (totalSubVolume s.subModules m) m.volume) := by
  refine ⟨?_, ?_, ?_, ?_, ?_⟩
  · rw [validateParentCapacity,
      countP_flatMap_unique s.subModules s.mainModules m hm hnd _ ?_, capacity_countP_warn]
    intro f hpf
    simp only [Bool.and_eq_true, beq_iff_eq] at hpf
    exact hpf.1
  · rw [validateParentCapacity,
      countP_flatMap_unique s.subModules s.mainModules m hm hnd _ ?_, capacity_countP_err]
    intro f hpf
    simp only [Bool.and_eq_true, beq_iff_eq] at hpf
    exact hpf.1
  · rintro ⟨⟨h1, h2⟩, h3⟩
    exact absurd h3 (not_lt.2 h2)
  · intro f hf htype
    unfold capacityFindingsFor at hf
    rcases List.mem_append.1 hf with h | h <;> split_ifs at h <;>
      simp only [List.mem_singleton, List.not_mem_nil] at h <;>
      first
        | exact absurd h (by simp)
        | (subst h; rfl)
        | (subst h; exact absurd htype (by simp [capacityErrorFinding]))
  · intro f hf htype
    unfold capacityFindingsFor at hf
    rcases List.mem_append.1 hf with h | h <;> split_ifs at h <;>
      simp only [List.mem_singleton, List.not_mem_nil] at h <;>
      first
        | exact absurd h (by simp)
        | (subst h; rfl)
        | (subst h; exact absurd htype (by simp [capacityWarningFinding]))

/-- Witness for C3: the parent of volume 10 with one child of volume 9.5
receives exactly one capacity warning. -/
theorem claim_C3_witness :
    (mkMod "P") ∈ stCapacity.mainModules ∧ (mainIdsOf stCapacity).Nodup ∧
    (validateParentCapacity stCapacity).countP
        (fun f => f.moduleId == some (mkMod "P").instanceId && f.type == Severity.warning) = 1 :=
  ⟨of_decide_eq_true (by with_unfolding_all rfl), of_decide_eq_true (by with_unfolding_all rfl),
    by
      rw [(claim_C3 stCapacity (mkMod "P") (of_decide_eq_true (by with_unfolding_all rfl))
        (of_decide_eq_true (by with_unfolding_all rfl))).1, if_pos]
      exact ⟨of_decide_eq_true (by with_unfolding_all rfl),
        of_decide_eq_true (by with_unfolding_all rfl)⟩⟩

/-- Claim C4: a layout state with zero main modules validates to exactly the
single empty-layout finding, of severity warning, whatever the other fields. -/
theorem claim_C4 (s : LayoutState) (h : s.mainModules = []) :
    validateLayout s = [emptyLayoutWarning] ∧ emptyLayoutWarning.type = Severity.warning := by
  refine ⟨?_, rfl⟩
  simp [validateLayout, h]

/-- Witness for C4 at the concrete empty state. -/
theorem claim_C4_witness :
    emptyState.mainModules = [] ∧
      (validateLayout emptyState = [emptyLayoutWarning] ∧
        emptyLayoutWarning.type = Severity.warning) :=
  ⟨rfl, claim_C4 emptyState rfl⟩

/-- Claim C5: the port compatibility predicate returns true exactly when the two
types are equal, one of them is the std port, or the pair is hab with svc in
either order; it is symmetric, and the three concrete cases of the claim hold. -/
theorem claim_C5 :
    (∀ a b : PortType, canPortsConnect a b = true ↔
      (a = b ∨ a = PortType.stdPort ∨ b = PortType.stdPort ∨
       (a = PortType.habPort ∧ b = PortType.svcPort) ∨
       (a = PortType.svcPort ∧ b = PortType.habPort))) ∧
    (∀ a b : PortType, canPortsConnect a b = canPortsConnect b a) ∧
    canPortsConnect PortType.stdPort PortType.airlockPort = true ∧
    canPortsConnect PortType.habPort PortType.airlockPort = false ∧
    canPortsConnect PortType.habPort PortType.svcPort = true := by
  refine ⟨fun a b => ?_, fun a b => ?_, rfl, rfl, rfl⟩ <;> cases a <;> cases b <;> decide

/-- Claim C6, amended: the port-reuse rule emits, for every key moduleId colon
portId counted over both endpoints of every connection, exactly one error
finding iff the key occurs more than once, stating the count, the key ids being
deduplicated in first-occurrence order; each finding is an error tagged with the
prefix of the key before the first colon; two connections sharing the colon-free
endpoint (modA, portX) produce exactly the one finding of count 2. -/
theorem claim_C6 (s : LayoutState) :
    validatePortLimits s =
      ((firstDedup (endpointKeys s.connections)).filter
          (fun k => decide (1 < (endpointKeys s.connections).count k))).map
        (fun k => portLimitFinding s.mainModules k ((endpointKeys s.connections).count k)) ∧
    (firstDedup (endpointKeys s.connections)).Nodup ∧
    (∀ k, k ∈ firstDedup (endpointKeys s.connections) ↔ k ∈ endpointKeys s.connections) ∧
    (∀ (mains : List PlacedMainModule) (k : String) (c : ℕ),
       (portLimitFinding mains k c).type = Severity.error ∧
       (portLimitFinding mains k c).moduleId = some (firstSegment k) ∧
       (portLimitFinding mains k c).message = msgPortLimit (portModuleName mains k) c) ∧
    validatePortLimits stSharedPort =
      [portLimitFinding stSharedPort.mainModules keyModAPortX 2] := by
  refine ⟨?_, nodup_firstDedup _, fun k => mem_firstDedup _ k, fun mains k c => ⟨rfl, rfl, rfl⟩, ?_⟩
  · rw [validatePortLimits, portUsage_eq, counterOf, List.filterMap_map]
    have hpt : ∀ k : String,
        ((fun p : String × ℕ =>
          if p.2 > 1 then some (portLimitFinding s.mainModules p.1 p.2) else none) ∘
          (fun k => (k, (endpointKeys s.connections).count k))) k =
        (fun k => if (fun k2 => decide (1 < (endpointKeys s.connections).count k2)) k then
          some ((fun k2 =>
            portLimitFinding s.mainModules k2 ((endpointKeys s.connections).count k2)) k)
        else none) k := by
      intro k
      simp only [Function.comp_apply]
      by_cases h : 1 < (endpointKeys s.connections).count k <;> simp [h]
    rw [funext hpt, filterMap_ite_eq_filter_map]
  · with_unfolding_all rfl

/-- Counterexample to C6 as stated: in `stColonIds` every endpoint
(moduleId, portId) pair occurs exactly once, yet the rule emits one finding,
because the keys of the two distinct pairs (a:b, c) and (a, b:c) collide on the
concatenated string. -/
theorem claim_C6_cex :
    (pairEndpoints stColonIds.connections).Nodup ∧
    (validatePortLimits stColonIds).length = 1 :=
  ⟨of_decide_eq_true (by with_unfolding_all rfl), by with_unfolding_all rfl⟩

/-- Claim C7: the 3D gate allows the switch iff validate returns no error
finding and at least one main module exists, and its errors field is exactly
the error findings of validate. -/
theorem claim_C7 (s : LayoutState) :
    ((canSwitchTo3D s).canSwitch = true ↔
      ((validateLayout s).countP (fun f => f.type == Severity.error) = 0 ∧
        0 < s.mainModules.length)) ∧
    (canSwitchTo3D s).errors = (validateLayout s).filter (fun f => f.type == Severity.error) := by
  refine ⟨?_, rfl⟩
  simp [canSwitchTo3D, List.countP_eq_length_filter]

/-- Claim C8: the port-connection and sub-module checks are item-wise, a
connection with a dangling module reference contributes exactly one generic
error, one with resolved modules but a dangling port exactly one port error, an
orphan sub module exactly one no-parent error, each skipping only that item;
and on a nonempty layout validate is the concatenation of all nine rules, so
the rest always runs.  Totality is intrinsic: every definition is a total
function. -/
theorem claim_C8 (s : LayoutState) :
    validatePortConnections s = s.connections.flatMap (connCheck s.mainModules) ∧
    validateSubModulePlacement s = s.subModules.flatMap (subCheck s.mainModules) ∧
    (∀ conn : Connection,
       (s.mainModules.find? (fun m => m.instanceId == conn.fromModuleId) = none ∨
        s.mainModules.find? (fun m => m.instanceId == conn.toModuleId) = none) →
       connCheck s.mainModules conn =
         [{ type := Severity.error, message := msgMissingModule, moduleId := none }]) ∧
    (∀ (conn : Connection) (fromMod toMod : PlacedMainModule),
       s.mainModules.find? (fun m => m.instanceId == conn.fromModuleId) = some fromMod →
       s.mainModules.find? (fun m => m.instanceId == conn.toModuleId) = some toMod →
       (fromMod.ports.find? (fun p => p.id == conn.fromPortId) = none ∨
        toMod.ports.find? (fun p => p.id == conn.toPortId) = none) →
       connCheck s.mainModules conn =
         [{ type := Severity.error, message := msgMissingPort, moduleId := none }]) ∧
    (∀ subModule : PlacedSubModule,
       s.mainModules.find? (fun m => m.instanceId == subModule.parentInstanceId) = none →
       subCheck s.mainModules subModule =
         [{ type := Severity.error, message := msgNoParent subModule.shortName,
            moduleId := none }]) ∧
    (s.mainModules.length ≠ 0 →
       validateLayout s =
         connectivityFindings s ++ overlapFindings s ++ validateParentCapacity s ++
         crewVolumeFindings s ++ validateEssentials s ++ validateZClearance s ++
         validatePortConnections s ++ validateSubModulePlacement s ++ validatePortLimits s) := by
  refine ⟨rfl, rfl, ?_, ?_, ?_, ?_⟩
  · intro conn h
    cases hf : s.mainModules.find? (fun m => m.instanceId == conn.fromModuleId) with
    | none =>
      cases ht : s.mainModules.find? (fun m => m.instanceId == conn.toModuleId) <;>
        simp [connCheck, hf, ht]
    | some fromMod =>
      rcases h with h | h
      · rw [hf] at h
        cases h
      · simp [connCheck, hf, h]
  · intro conn fromMod toMod hf ht h
    rcases h with h | h
    · cases hp : toMod.ports.find? (fun p => p.id == conn.toPortId) <;>
        simp [connCheck, hf, ht, h, hp]
    · cases hp : fromMod.ports.find? (fun p => p.id == conn.fromPortId) <;>
        simp [connCheck, hf, ht, h, hp]
  · intro subModule h
    simp [subCheck, h]
  · intro h
    simp [validateLayout, h]

/-- Witness for C8 at the concrete state with one dangling connection endpoint
and one orphan sub module. -/
theorem claim_C8_witness :
    (stDangling.mainModules.find?
        (fun m => m.instanceId == (mkConn "c1" "A" "p" "ghost" "q").fromModuleId) = none ∨
     stDangling.mainModules.find?
        (fun m => m.instanceId == (mkConn "c1" "A" "p" "ghost" "q").toModuleId) = none) ∧
    connCheck stDangling.mainModules (mkConn "c1" "A" "p" "ghost" "q") =
      [{ type := Severity.error, message := msgMissingModule, moduleId := none }] ∧
    stDangling.mainModules.find?
        (fun m => m.instanceId == (mkSub "s1" "ghost" 1).parentInstanceId) = none ∧
    subCheck stDangling.mainModules (mkSub "s1" "ghost" 1) =
      [{ type := Severity.error, message := msgNoParent (mkSub "s1" "ghost" 1).shortName,
         moduleId := none }] :=
  ⟨Or.inr (by with_unfolding_all rfl),
   (claim_C8 stDangling).2.2.1 (mkConn "c1" "A" "p" "ghost" "q")
     (Or.inr (by with_unfolding_all rfl)),
   by with_unfolding_all rfl,
   (claim_C8 stDangling).2.2.2.2.1 (mkSub "s1" "ghost" 1) (by with_unfolding_all rfl)⟩

/-- Claim C9: two states agreeing on crewSize, mainModules, subModules and
connections validate identically and produce the same 3D gate, whatever their
selection and zoom fields. -/
theorem claim_C9 (s1 s2 : LayoutState) (hc : s1.crewSize = s2.crewSize)
    (hm : s1.mainModules = s2.mainModules) (hs : s1.subModules = s2.subModules)
    (hx : s1.connections = s2.connections) :
    validateLayout s1 = validateLayout s2 ∧ canSwitchTo3D s1 = canSwitchTo3D s2 := by
  obtain ⟨c1, m1, b1, x1, p1, q1, r1⟩ := s1
  obtain ⟨c2, m2, b2, x2, p2, q2, r2⟩ := s2
  dsimp at hc hm hs hx
  subst hc hm hs hx
  exact ⟨rfl, rfl⟩

/-- Witness for C9: `stThree` against the same state with all three selection
fields set. -/
theorem claim_C9_witness :
    stThree.crewSize = stThreeSelected.crewSize ∧
    stThree.mainModules = stThreeSelected.mainModules ∧
    stThree.subModules = stThreeSelected.subModules ∧
    stThree.connections = stThreeSelected.connections ∧
    (validateLayout stThree = validateLayout stThreeSelected ∧
      canSwitchTo3D stThree = canSwitchTo3D stThreeSelected) :=
  ⟨rfl, rfl, rfl, rfl, claim_C9 stThree stThreeSelected rfl rfl rfl rfl⟩

/-- Claim C10: in a nonempty layout every warning that validate emits is the
capacity warning of some parent in the band above 90 and at most 100 percent,
and when no parent is in that band every finding is an error. -/
theorem claim_C10 (s : LayoutState) (hne : s.mainModules ≠ []) :
    (∀ f ∈ validateLayout s, f.type = Severity.warning →
       ∃ m ∈ s.mainModules,
         totalSubVolume s.subModules m > m.volume * 0.9 ∧
         totalSubVolume s.subModules m ≤ m.volume ∧
         f = capacityWarningFinding m (totalSubVolume s.subModules m)) ∧
    ((∀ m ∈ s.mainModules,
        ¬(totalSubVolume s.subModules m > m.volume * 0.9 ∧
          totalSubVolume s.subModules m ≤ m.volume)) →
      ∀ f ∈ validateLayout s, f.type = Severity.error) := by
  have hlen : ¬ s.mainModules.length = 0 := by
    simpa [List.length_eq_zero] using hne
  have hmem : ∀ f ∈ validateLayout s, f.type = Severity.error ∨
      ∃ m ∈ s.mainModules,
        totalSubVolume s.subModules m > m.volume * 0.9 ∧
        totalSubVolume s.subModules m ≤ m.volume ∧
        f = capacityWarningFinding m (totalSubVolume s.subModules m) := by
    intro f hf
    rw [validateLayout, if_neg hlen] at hf
    simp only [List.mem_append] at hf
    rcases hf with ((((((((hf | hf) | hf) | hf) | hf) | hf) | hf) | hf) | hf)
    · exact Or.inl (connectivity_all_error s f hf)
    · exact Or.inl (overlap_all_error s f hf)
    · exact capacity_error_or_band s f hf
    · exact Or.inl (crewVolume_all_error s f hf)
    · exact Or.inl (essentials_all_error s f hf)
    · exact Or.inl (zClearance_all_error s f hf)
    · obtain ⟨c, hc, hfc⟩ := List.mem_flatMap.1 hf
      exact Or.inl (connCheck_all_error s.mainModules c f hfc)
    · obtain ⟨sub, hsub, hfs⟩ := List.mem_flatMap.1 hf
      exact Or.inl (subCheck_all_error s.mainModules sub f hfs)
    · exact Or.inl (portLimits_all_error s f hf)
  constructor
  · intro f hf hw
    rcases hmem f hf with h | h
    · rw [hw] at h
      cases h
    · exact h
  · intro hband f hf
    rcases hmem f hf with h | ⟨m, hm, h1, h2, _⟩
    · exact h
    · exact absurd ⟨h1, h2⟩ (hband m hm)

/-- Witness for C10 at `stThree`, which has no sub modules and hence no parent
in the capacity band. -/
theorem claim_C10_witness :
    stThree.mainModules ≠ [] ∧
    (∀ m ∈ stThree.mainModules,
        ¬(totalSubVolume stThree.subModules m > m.volume * 0.9 ∧
          totalSubVolume stThree.subModules m ≤ m.volume)) ∧
    (∀ f ∈ validateLayout stThree, f.type = Severity.error) := by
  have hband : ∀ m ∈ stThree.mainModules,
      ¬(totalSubVolume stThree.subModules m > m.volume * 0.9 ∧
        totalSubVolume stThree.subModules m ≤ m.volume) := by
    intro m hm
    have hmm : stThree.mainModules = [mkMod "A", mkMod "B", mkMod "C"] := rfl
    rw [hmm] at hm
    simp only [List.mem_cons, List.not_mem_nil, or_false] at hm
    have hv : totalSubVolume stThree.subModules m = 0 := rfl
    rw [hv]
    rintro ⟨h1, h2⟩
    have hm9 : m.volume = 10 := by
      rcases hm with rfl | rfl | rfl <;> with_unfolding_all rfl
    rw [hm9] at h1
    exact (of_decide_eq_true (by with_unfolding_all rfl) : ¬ ((0 : ℚ) > 10 * 0.9)) h1
  exact ⟨by simp [stThree], hband, (claim_C10 stThree (by simp [stThree])).2 hband⟩
